import Mathlib

/-!
Verification of the guided onboarding dialogue engine
(`backend/routes/onboardingFlows.js` AIService + `backend/models/OnboardingProgress.js`).

Text is modelled as `List Char`; JavaScript strings, regex matchers and the
mongoose document methods are translated into executable Lean functions.
Timestamps (`new Date()`, `Date.now()`) are passed in as an explicit `now : Nat`.
-/

/- Confidence values are rationals; Batteries seals `Rat.mul`/`Rat.inv` as
irreducible, which blocks `decide` on concrete classifier runs. -/
attribute [local semireducible] Rat.mul Rat.inv

abbrev Str := List Char

/-- The apostrophe character (U+0027), used to build string constants. -/
def apoc : Char := Char.ofNat 39

/-- JavaScript `text.toLowerCase()` (ASCII behaviour of `Char.toLower`). -/
def lc (s : Str) : Str := s.map Char.toLower

/-- Contiguous-substring test: does `needle` occur in `hay`? -/
def strContains : Str → Str → Bool
  | [], needle => needle.isEmpty
  | c :: t, needle => needle.isPrefixOf (c :: t) || strContains t needle

/-- JavaScript `hay.includes(needle)`. -/
def jsIncludes (hay needle : Str) : Bool := strContains hay needle

/-- ASCII whitespace recognised by `String.trim`. -/
def isJsSpace (c : Char) : Bool := c == ' ' || c == '\t' || c == '\n' || c == '\r'

/-- JavaScript `s.trim()`. -/
def jsTrim (s : Str) : Str :=
  ((s.dropWhile isJsSpace).reverse.dropWhile isJsSpace).reverse

/-- JavaScript `s.replace(pat, repl)` with a string pattern: replaces the
first occurrence only, returns `s` unchanged when `pat` does not occur. -/
def replaceFirst : Str → Str → Str → Str
  | s, pat, repl =>
    if pat.isPrefixOf s then repl ++ s.drop pat.length
    else
      match s with
      | [] => []
      | c :: r => c :: replaceFirst r pat repl

/-- JavaScript `o || d` for an optional string field: `undefined` and the
empty string are both falsy. -/
def jsOrStr (o : Option Str) (d : Str) : Str :=
  match o with
  | some s => if s = [] then d else s
  | none => d

/-! ### Regex building blocks

The extraction regexes of `extractFieldValue` are implemented as leftmost-match
scanners with the exact greedy/backtracking behaviour of the JavaScript
patterns.  A matcher `matchXAt prevW s` attempts the pattern at the head of
`s`, where `prevW` records whether the character before `s` is a word
character (for `\b`); it returns the number of characters consumed. -/

/-- JavaScript `\w`: `[A-Za-z0-9_]`. -/
def isWordChar (c : Char) : Bool := c.isAlphanum || c == '_'

/-- Wordness of the next character; end of input counts as non-word (`\b`). -/
def nextIsWord (s : Str) : Bool :=
  match s with
  | [] => false
  | c :: _ => isWordChar c

/-- `\d{n}`: consume exactly `n` digits, returning the rest. -/
def takeDigits : Nat → Str → Option Str
  | 0, s => some s
  | _ + 1, [] => none
  | n + 1, c :: r => if c.isDigit then takeDigits n r else none

/-- Email regex `[A-Za-z0-9._%+-]` (local part). -/
def isLocalChar (c : Char) : Bool :=
  c.isAlphanum || c == '.' || c == '_' || c == '%' || c == '+' || c == '-'

/-- Email regex `[A-Za-z0-9.-]` (domain part). -/
def isDomainChar (c : Char) : Bool := c.isAlphanum || c == '.' || c == '-'

/-- Email regex `[A-Z|a-z]` — note the literal `|` inside the class. -/
def isTldChar (c : Char) : Bool := c.isAlpha || c == '|'

/-- Backtracking search for `[A-Z|a-z]{2,}\b` over `after`, trying greedily
`j = tldLen, tldLen-1, …, 2` characters (`tldLen` is the maximal TLD run). -/
def emailTldSearch (after : Str) (tldLen : Nat) : Option Nat :=
  (List.range (tldLen + 1)).reverse.findSome? (fun j =>
    if 2 ≤ j then
      match after[j - 1]? with
      | some lastC => if isWordChar lastC != nextIsWord (after.drop j) then some j else none
      | none => none
    else none)

/-- Backtracking search for `[A-Za-z0-9.-]+\.[A-Z|a-z]{2,}\b` given the maximal
domain-character run `dom` and the remainder `r3`; tries the greedy split
`k = dom.length, …, 1` for the `+` quantifier, requiring a literal `.` next. -/
def emailDomSearch (dom r3 : Str) : Option Nat :=
  (List.range (dom.length + 1)).reverse.findSome? (fun k =>
    if 1 ≤ k && (dom[k]? == some '.') then
      (match emailTldSearch (dom.drop (k + 1) ++ r3)
          ((dom.drop (k + 1) ++ r3).takeWhile isTldChar).length with
       | some j => some (k + 1 + j)
       | none => none)
    else none)

/-- `\b[A-Za-z0-9._%+-]+@[A-Za-z0-9.-]+\.[A-Z|a-z]{2,}\b` attempted at the
head of `s`. -/
def matchEmailAt (prevW : Bool) (s : Str) : Option Nat :=
  match s with
  | [] => none
  | c :: _ =>
    if prevW == isWordChar c then none
    else if (s.takeWhile isLocalChar).isEmpty then none
    else
      match s.dropWhile isLocalChar with
      | c2 :: r2 =>
        if c2 == '@' then
          (match emailDomSearch (r2.takeWhile isDomainChar) (r2.dropWhile isDomainChar) with
           | some m => some ((s.takeWhile isLocalChar).length + 1 + m)
           | none => none)
        else none
      | [] => none

/-- `[-.]?`: optionally consume one separator (greedy, but the following
element is always a digit, so no backtracking is ever needed). -/
def phoneSep (s : Str) : Nat × Str :=
  match s with
  | c :: r => if c == '-' || c == '.' then (1, r) else (0, s)
  | [] => (0, [])

/-- First phone alternative `\b\d{10}\b`. -/
def phoneAlt1 (s : Str) : Option Nat :=
  if (s.takeWhile Char.isDigit).length == 10 && !nextIsWord (s.dropWhile Char.isDigit) then
    some 10
  else none

/-- Second phone alternative `\b\d{3}[-.]?\d{3}[-.]?\d{4}\b`. -/
def phoneAlt2 (s : Str) : Option Nat :=
  match takeDigits 3 s with
  | none => none
  | some r1 =>
    match takeDigits 3 (phoneSep r1).2 with
    | none => none
    | some r3 =>
      match takeDigits 4 (phoneSep r3).2 with
      | none => none
      | some r5 =>
        if nextIsWord r5 then none
        else some (3 + (phoneSep r1).1 + 3 + (phoneSep r3).1 + 4)

/-- `\b\d{10}\b|\b\d{3}[-.]?\d{3}[-.]?\d{4}\b` attempted at the head of `s`. -/
def matchPhoneAt (prevW : Bool) (s : Str) : Option Nat :=
  match s with
  | [] => none
  | c :: _ =>
    if prevW == isWordChar c then none
    else
      match phoneAlt1 s with
      | some n => some n
      | none => phoneAlt2 s

/-- Tail of the number pattern after the comma groups: `(?:\.\d{2})?\b`,
including the fallback to the empty option when the decimal part or its
trailing `\b` fails. -/
def numTail (consumed : Nat) (rest : Str) : Option Nat :=
  match rest with
  | c :: a :: b :: r2 =>
    if c == '.' && a.isDigit && b.isDigit && !nextIsWord r2 then some (consumed + 3)
    else if nextIsWord rest then none else some consumed
  | _ => if nextIsWord rest then none else some consumed

/-- Greedy `(?:,\d{3})*` loop with backtracking into `numTail`. -/
def numLoop (consumed : Nat) (rest : Str) : Option Nat :=
  match rest with
  | c :: a :: b :: d :: r2 =>
    if c == ',' && a.isDigit && b.isDigit && d.isDigit then
      (match numLoop (consumed + 4) r2 with
       | some n => some n
       | none => numTail consumed (c :: a :: b :: d :: r2))
    else numTail consumed (c :: a :: b :: d :: r2)
  | _ => numTail consumed rest

/-- `\b\d+(?:,\d{3})*(?:\.\d{2})?\b` attempted at the head of `s`. -/
def matchNumberAt (prevW : Bool) (s : Str) : Option Nat :=
  match s with
  | [] => none
  | c :: _ =>
    if prevW == isWordChar c then none
    else
      if (s.takeWhile Char.isDigit).isEmpty then none
      else numLoop (s.takeWhile Char.isDigit).length (s.dropWhile Char.isDigit)

/-- Case-insensitive literal: returns the rest of `s` after `pat` (given in
lowercase), or `none`. -/
def ciLiteral : Str → Str → Option Str
  | [], s => some s
  | _ :: _, [] => none
  | pc :: pr, c :: r => if c.toLower == pc then ciLiteral pr r else none

/-- Month alternation of the textual date regex, in source order. -/
def monthNames : List Str :=
  ["january".toList, "february".toList, "march".toList, "april".toList,
   "may".toList, "june".toList, "july".toList, "august".toList,
   "september".toList, "october".toList, "november".toList, "december".toList]

/-- Ordinal suffix alternation `(?:st|nd|rd|th)`. -/
def ordinalSuffixes : List Str :=
  ["st".toList, "nd".toList, "rd".toList, "th".toList]

/-- `\s` character class (ASCII portion). -/
def isSpaceChar (c : Char) : Bool :=
  c == ' ' || c == '\t' || c == '\n' || c == '\r' || c == '\x0b' || c == '\x0c'

/-- `\s+(month)\s+\d{4}\b` part of the textual date pattern. -/
def dateTextTail (consumed : Nat) (rest : Str) : Option Nat :=
  let sp1 := rest.takeWhile isSpaceChar
  if sp1.isEmpty then none
  else
    let r2 := rest.dropWhile isSpaceChar
    match monthNames.findSome? (fun m => (ciLiteral m r2).map (fun r3 => (m.length, r3))) with
    | some (mlen, r3) =>
      let sp2 := r3.takeWhile isSpaceChar
      if sp2.isEmpty then none
      else
        let r4 := r3.dropWhile isSpaceChar
        (match takeDigits 4 r4 with
         | some r5 =>
           if nextIsWord r5 then none else some (consumed + sp1.length + mlen + sp2.length + 4)
         | none => none)
    | none => none

/-- `(?:st|nd|rd|th)?` then the tail, greedy with fallback. -/
def dateTextAfterDay (consumed : Nat) (rest : Str) : Option Nat :=
  match ordinalSuffixes.findSome? (fun suf =>
      (ciLiteral suf rest).bind (fun r2 => dateTextTail (consumed + suf.length) r2)) with
  | some n => some n
  | none => dateTextTail consumed rest

/-- `\b\d{1,2}(?:st|nd|rd|th)?\s+(january|…|december)\s+\d{4}\b` (flag `i`)
attempted at the head of `s`; the day part `\d{1,2}` is greedy. -/
def matchDateTextAt (prevW : Bool) (s : Str) : Option Nat :=
  match s with
  | [] => none
  | a :: rest =>
    if prevW == isWordChar a then none
    else
      match rest with
      | [] => if a.isDigit then dateTextAfterDay 1 [] else none
      | b :: r2 =>
        (match (if a.isDigit && b.isDigit then dateTextAfterDay 2 r2 else none) with
         | some n => some n
         | none => if a.isDigit then dateTextAfterDay 1 (b :: r2) else none)

/-- Separator class (dash or slash) of the numeric date pattern. -/
def dateSep (c : Char) : Bool := c == '-' || c == '/'

/-- Final `\d{4}\b` of the numeric date pattern. -/
def dateNumFinish (consumed : Nat) (rest : Str) : Option Nat :=
  match takeDigits 4 rest with
  | some r5 => if nextIsWord r5 then none else some (consumed + 4)
  | none => none

/-- Day then separator then `\d{4}\b`, the part after the first separator (greedy day). -/
def dateNumPart2 (consumed : Nat) (rest : Str) : Option Nat :=
  match rest with
  | [] => none
  | [_] => none
  | a :: b :: r2 =>
    (match (if a.isDigit && b.isDigit then
        (match r2 with
         | c :: r3 => if dateSep c then dateNumFinish (consumed + 3) r3 else none
         | [] => none)
      else none) with
     | some n => some n
     | none => if a.isDigit && dateSep b then dateNumFinish (consumed + 2) r2 else none)

/-- Numeric date pattern (one or two digits, separator, one or two digits, separator, four digits, word boundaries) attempted at the head of `s`. -/
def matchDateNumAt (prevW : Bool) (s : Str) : Option Nat :=
  match s with
  | [] => none
  | a :: rest =>
    if prevW == isWordChar a then none
    else
      match rest with
      | [] => none
      | b :: r2 =>
        (match (if a.isDigit && b.isDigit then
            (match r2 with
             | c :: r3 => if dateSep c then dateNumPart2 3 r3 else none
             | [] => none)
          else none) with
         | some n => some n
         | none => if a.isDigit && dateSep b then dateNumPart2 2 r2 else none)

/-- Leftmost-match scan: try the matcher at every position, left to right,
tracking the wordness of the previous character for `\b`. -/
def scanFrom (mAt : Bool → Str → Option Nat) : Bool → Str → Option Str
  | _, [] => none
  | prevW, c :: rest =>
    match mAt prevW (c :: rest) with
    | some n => some ((c :: rest).take n)
    | none => scanFrom mAt (isWordChar c) rest

/-- JavaScript `s.match(re)?.[0]` for a non-global regex. -/
def firstMatch (mAt : Bool → Str → Option Nat) (s : Str) : Option Str :=
  scanFrom mAt false s

/-! ### Data model

Mirrors `OnboardingFlowConfig` (step/field sub-schemas) and
`OnboardingProgress` (step-progress/field-data sub-schemas). -/

/-- `stepProgress.status` enum of the progress schema. -/
inductive StepStatus where
  | pending
  | in_progress
  | completed
  | skipped
deriving DecidableEq, Repr

/-- Top-level `status` enum of the progress schema. -/
inductive ProgStatus where
  | active
  | paused
  | completed
  | abandoned
deriving DecidableEq, Repr

/-- `fieldData` entry of a step-progress record. -/
structure FieldData where
  fieldId : Str
  value : Str
  extractedAt : Nat
  confirmed : Bool
deriving DecidableEq, Repr

/-- One `stepProgress` record. -/
structure StepProgress where
  stepId : Str
  stepName : Str
  status : StepStatus
  startedAt : Option Nat
  completedAt : Option Nat
  fieldData : List FieldData
  confirmationData : Option Str
deriving DecidableEq, Repr

/-- `field.validation` sub-document (only `options` is consulted by the engine). -/
structure Validation where
  options : Option (List Str)
deriving DecidableEq, Repr

/-- A field of a flow step (named `FieldDef` to avoid clashing with Mathlib). -/
structure FieldDef where
  fieldId : Str
  fieldName : Str
  fieldType : Str
  required : Bool
  validation : Option Validation
  prompt : Str
  confirmationPrompt : Option Str
deriving DecidableEq, Repr

/-- A step of a flow configuration.  `nextStep` uses `[]` for both the
absent and the empty string (both falsy in JavaScript). -/
structure Step where
  stepId : Str
  stepName : Str
  stepType : Str
  fields : List FieldDef
  confirmationMessage : Option Str
  nextStep : Str
  isCheckpoint : Bool
deriving DecidableEq, Repr

/-- `OnboardingFlowConfig` document (fields the engine consults). -/
structure FlowConfig where
  flowId : Str
  steps : List Step
  welcomeMessage : Str
  completionMessage : Str
deriving DecidableEq, Repr

/-- `OnboardingProgress` document. -/
structure Progress where
  userId : Str
  flowId : Str
  sessionId : Str
  currentStep : Str
  status : ProgStatus
  stepProgress : List StepProgress
  startedAt : Nat
  completedAt : Option Nat
  lastActivity : Nat
deriving DecidableEq, Repr

/-- `getCurrentStepProgress()`: first record whose `stepId` matches
`currentStep`. -/
def getCurrentStepProgress (p : Progress) : Option StepProgress :=
  p.stepProgress.find? (fun sp => sp.stepId == p.currentStep)

/-- In-place mutation of the first record found by `stepId` (JavaScript
`find` returns a live reference). -/
def updateFirstRecord : List StepProgress → Str → (StepProgress → StepProgress) → List StepProgress
  | [], _, _ => []
  | sp :: rest, sid, f =>
    if sp.stepId = sid then f sp :: rest else sp :: updateFirstRecord rest sid f

/-- Body of `updateFieldData`: overwrite the first entry with this
`fieldId`, or push a new unconfirmed entry at the end. -/
def updFieldEntry : List FieldData → Str → Str → Nat → List FieldData
  | [], fieldId, value, now => [⟨fieldId, value, now, false⟩]
  | fd :: rest, fieldId, value, now =>
    if fd.fieldId = fieldId then { fd with value := value, extractedAt := now } :: rest
    else fd :: updFieldEntry rest fieldId value now

/-- `updateFieldData(stepId, fieldId, value)`: no-op when no record for
`stepId` exists (the method returns `false` without saving). -/
def updateFieldData (p : Progress) (stepId fieldId value : Str) (now : Nat) : Progress :=
  match p.stepProgress.find? (fun sp => sp.stepId == stepId) with
  | none => p
  | some _ =>
    { p with
      stepProgress := updateFirstRecord p.stepProgress stepId
        (fun sp => { sp with fieldData := updFieldEntry sp.fieldData fieldId value now }),
      lastActivity := now }

/-- `confirmStepData(stepId, confirmationData)`: mark the record completed,
stamp `completedAt`, store the snapshot and confirm every field entry. -/
def confirmStepData (p : Progress) (stepId : Str) (confirmationData : Str) (now : Nat) : Progress :=
  match p.stepProgress.find? (fun sp => sp.stepId == stepId) with
  | none => p
  | some _ =>
    { p with
      stepProgress := updateFirstRecord p.stepProgress stepId
        (fun sp =>
          { sp with
            status := StepStatus.completed,
            completedAt := some now,
            confirmationData := some confirmationData,
            fieldData := sp.fieldData.map (fun fd => { fd with confirmed := true }) }),
      lastActivity := now }

/-- `moveToNextStep(nextStepId)`. -/
def moveToNextStep (p : Progress) (nextStepId : Str) (now : Nat) : Progress :=
  { p with currentStep := nextStepId, lastActivity := now }

/-! ### The AIService engine -/

/-- Splice one apostrophe between two string pieces (several keyword and
response constants contain an apostrophe). -/
def mkAp (a b : String) : Str := a.toList ++ [apoc] ++ b.toList

/-- Result of `classifyIntent`. -/
structure Intent where
  name : Str
  confidence : ℚ
deriving DecidableEq, Repr

/-- The fixed `intentKeywords` table of the constructor, in registration
(insertion) order. -/
def intentKeywords : List (Str × List Str) :=
  [ ("greeting".toList,
     ["hello".toList, "hi".toList, "hey".toList, "good morning".toList,
      "good afternoon".toList, "good evening".toList]),
    ("help".toList,
     ["help".toList, "assist".toList, "support".toList, "guide".toList, "how to".toList]),
    ("question".toList,
     ["what".toList, "how".toList, "why".toList, "when".toList, "where".toList,
      "explain".toList, "tell me".toList]),
    ("gratitude".toList,
     ["thank".toList, "thanks".toList, "appreciate".toList, "grateful".toList]),
    ("farewell".toList,
     ["bye".toList, "goodbye".toList, "see you".toList, "farewell".toList, "exit".toList]),
    ("learning".toList,
     ["learn".toList, "teach".toList, "show".toList, "tutorial".toList, "guide".toList]),
    ("confusion".toList,
     ["confused".toList, mkAp "don" "t understand", "unclear".toList,
      "difficult".toList, "hard".toList]),
    ("confirmation".toList,
     ["yes".toList, "correct".toList, "right".toList, mkAp "that" "s right",
      "confirm".toList, "proceed".toList, "go ahead".toList]),
    ("correction".toList,
     ["no".toList, "wrong".toList, "incorrect".toList, "change".toList,
      "modify".toList, "edit".toList, "update".toList]),
    ("start_flow".toList,
     ["start".toList, "begin".toList, "ready".toList, mkAp "let" "s go",
      "proceed".toList, "continue".toList]),
    ("skip".toList,
     ["skip".toList, "next".toList, "pass".toList, "not applicable".toList, "n/a".toList]) ]

/-- `matches.length / keywords.length` for one category. -/
def confidenceOf (keywords : List Str) (lowerText : Str) : ℚ :=
  ((keywords.filter (fun kw => jsIncludes lowerText kw)).length : ℚ) / (keywords.length : ℚ)

/-- One iteration of the `classifyIntent` loop: replace the best match only
on strictly greater confidence. -/
def stepBest (lowerText : Str) (best : Intent) (nk : Str × List Str) : Intent :=
  let confidence := confidenceOf nk.2 lowerText
  if best.confidence < confidence then ⟨nk.1, confidence⟩ else best

/-- `classifyIntent(text)`: iterate the table in registration order starting
from `{name: "unknown", confidence: 0}`. -/
def classifyIntent (text : Str) : Intent :=
  let lowerText := lc text
  intentKeywords.foldl (stepBest lowerText) ⟨"unknown".toList, 0⟩

/-- `extractFieldValue(message, field)`: typed extraction dispatch. -/
def extractFieldValue (message : Str) (field : FieldDef) : Option Str :=
  let lowerMessage := lc message
  if field.fieldType = "text".toList ∨ field.fieldType = "textarea".toList then
    some (jsTrim message)
  else if field.fieldType = "email".toList then
    firstMatch matchEmailAt message
  else if field.fieldType = "phone".toList then
    firstMatch matchPhoneAt message
  else if field.fieldType = "date".toList then
    match firstMatch matchDateTextAt message with
    | some d => some d
    | none => firstMatch matchDateNumAt message
  else if field.fieldType = "number".toList then
    firstMatch matchNumberAt message
  else if field.fieldType = "select".toList then
    match field.validation with
    | some v =>
      (match v.options with
       | some opts =>
         (match opts.find? (fun o => jsIncludes lowerMessage (lc o)) with
          | some o => if o = [] then none else some o  -- `selectedOption || null`
          | none => none)
       | none => none)
    | none => none
  else some (jsTrim message)

/-- `createResponse(content)`: only the `content` field matters to the
dialogue (the metadata is a fixed constant). -/
def createResponse (content : Str) : Str := content

/-- Render one field's confirmation line: substitute the stored value into
the field's `confirmationPrompt` (fallback `fieldName: {value}`) at the
first `{value}` occurrence. -/
def renderField (field : FieldDef) (v : Str) : Str :=
  replaceFirst (jsOrStr field.confirmationPrompt (field.fieldName ++ ": {value}".toList))
    "{value}".toList v

/-- `buildConfirmationData(currentStep, stepProgress)`: maps over the
record's `fieldData` in stored order, looks up each declared field (an
entry with no matching field renders as the empty string), renders each
line and joins with newlines. -/
def buildConfirmationData (currentStep : Step) (stepProgress : Option StepProgress) : Str :=
  match stepProgress with
  | none => []
  | some sp =>
    List.intercalate ['\n'] (sp.fieldData.map (fun fd =>
      ((currentStep.fields.find? (fun f => f.fieldId == fd.fieldId)).map
        (fun field => renderField field fd.value)).getD []))

/-- `getNextFieldToCollect(currentStep, onboardingProgress)`. -/
def getNextFieldToCollect (currentStep : Step) (p : Progress) : Option FieldDef :=
  match getCurrentStepProgress p with
  | none => currentStep.fields.head?
  | some sp =>
    let collected := sp.fieldData.map (fun fd => fd.fieldId)
    currentStep.fields.find? (fun f => !(collected.contains f.fieldId))

/-- `getRemainingFields(currentStep, onboardingProgress)`. -/
def getRemainingFields (currentStep : Step) (p : Progress) : List FieldDef :=
  match getCurrentStepProgress p with
  | none => currentStep.fields
  | some sp =>
    let collected := sp.fieldData.map (fun fd => fd.fieldId)
    currentStep.fields.filter (fun f => !(collected.contains f.fieldId))

/-- Response when the current step cannot be found. -/
def restartResponse : Str :=
  mkAp "I" "m sorry, I couldn" ++ mkAp "" "t find the current step. Let me help you restart the process."

/-- Response to a `correction` intent on a checkpoint step. -/
def correctionResponse : Str :=
  mkAp "I understand you" "d like to make changes. Please tell me which information needs to be corrected."

/-- Final fallback response of `processOnboardingMessage`. -/
def fallbackResponse : Str :=
  mkAp "I" "m not sure how to help with that. Could you please provide the information I asked for?"

/-- Response after confirming a step with no further step to enter. -/
def thankYouResponse : Str :=
  "Thank you for confirming. Let me process this information.".toList

/-- Clarification prefix used when extraction fails. -/
def clarifyPrefix : Str := mkAp "I couldn" "t understand that. "

/-- Response produced by the `catch` of `processOnboardingMessage` (a thrown
`TypeError` on a misconfigured step lands here). -/
def errorResponse : Str :=
  "I encountered an error processing your response. Please try again.".toList

/-- `showStepConfirmation`: render `{confirmation_data}` into the step's
confirmation message.  A step without `confirmationMessage` throws in
JavaScript and surfaces as the generic error response. -/
def showStepConfirmation (p : Progress) (currentStep : Step) : Progress × Str :=
  let sp := getCurrentStepProgress p
  let confirmationData := buildConfirmationData currentStep sp
  match currentStep.confirmationMessage with
  | some m => (p, createResponse (replaceFirst m "{confirmation_data}".toList confirmationData))
  | none => (p, errorResponse)

/-- `handleStepConfirmation`: confirm the current record, then follow
`nextStep` when it is non-empty. -/
def handleStepConfirmation (p : Progress) (currentStep : Step) (flowConfig : FlowConfig)
    (now : Nat) : Progress × Str :=
  let currentStepProgress := getCurrentStepProgress p
  let confirmationData := buildConfirmationData currentStep currentStepProgress
  let p1 := confirmStepData p currentStep.stepId confirmationData now
  if currentStep.nextStep = [] then (p1, createResponse thankYouResponse)
  else
    let p2 := moveToNextStep p1 currentStep.nextStep now
    match flowConfig.steps.find? (fun st => st.stepId == currentStep.nextStep) with
    | some nextStep =>
      if nextStep.stepType = "data_collection".toList then
        (match nextStep.fields.head? with
         | some firstField => (p2, createResponse firstField.prompt)
         | none => (p2, errorResponse))  -- `fields[0].prompt` throws
      else if nextStep.stepType = "completion".toList then
        (p2, createResponse (jsOrStr nextStep.confirmationMessage flowConfig.completionMessage))
      else (p2, createResponse thankYouResponse)
    | none => (p2, createResponse thankYouResponse)

/-- Record initialisation at the top of `handleDataCollection`: push a fresh
`in_progress` record when none exists for the current step. -/
def initStepProgress (p : Progress) (currentStep : Step) (now : Nat) : Progress :=
  match getCurrentStepProgress p with
  | some _ => p
  | none =>
    { p with
      stepProgress := p.stepProgress ++
        [⟨currentStep.stepId, currentStep.stepName, StepStatus.in_progress,
          some now, none, [], none⟩] }

/-- `handleDataCollection`: extract the next unfilled field from the
message, store it, and prompt, confirm or clarify. -/
def handleDataCollection (message : Str) (p : Progress) (currentStep : Step)
    (_flowConfig : FlowConfig) (now : Nat) : Progress × Str :=
  let p0 := initStepProgress p currentStep now
  match getNextFieldToCollect currentStep p0 with
  | none => showStepConfirmation p0 currentStep
  | some nextField =>
    (match extractFieldValue message nextField with
     | some fieldValue =>
       let p1 := updateFieldData p0 currentStep.stepId nextField.fieldId fieldValue now
       (match getRemainingFields currentStep p1 with
        | [] => showStepConfirmation p1 currentStep
        | nf :: _ => (p1, createResponse nf.prompt))
     | none => (p0, createResponse (clarifyPrefix ++ nextField.prompt)))

/-- `processOnboardingMessage(message, context)`: the engine entry point for
a session inside a flow. -/
def processOnboardingMessage (message : Str) (p : Progress) (flowConfig : FlowConfig)
    (now : Nat) : Progress × Str :=
  match flowConfig.steps.find? (fun st => st.stepId == p.currentStep) with
  | none => (p, createResponse restartResponse)
  | some currentStep =>
    let intent := classifyIntent (lc message)
    if intent.name = "confirmation".toList ∧ currentStep.isCheckpoint = true then
      handleStepConfirmation p currentStep flowConfig now
    else if intent.name = "correction".toList ∧ currentStep.isCheckpoint = true then
      (p, createResponse correctionResponse)
    else if currentStep.stepType = "data_collection".toList then
      handleDataCollection message p currentStep flowConfig now
    else if currentStep.stepType = "completion".toList then
      (p, createResponse (jsOrStr currentStep.confirmationMessage flowConfig.completionMessage))
    else (p, createResponse fallbackResponse)

/-! ### The `POST /start/:flowId` route (session creation) -/

/-- `status: { $in: ['active', 'paused'] }`. -/
def isActiveOrPaused : ProgStatus → Bool
  | ProgStatus.active => true
  | ProgStatus.paused => true
  | _ => false

/-- Outcome reported by the start route. -/
inductive StartOutcome where
  | resumed (p : Progress)
  | started (p : Progress)
deriving DecidableEq, Repr

/-- The `router.post('/start/:flowId')` handler after the flow lookup:
return an existing active/paused progress for this user and flow, otherwise
create and persist a fresh one.  The store is modelled as a list of
progress documents; `findOne` is the first match. -/
def startFlow (db : List Progress) (flowConfig : FlowConfig) (userId sessionId : Str)
    (now : Nat) : List Progress × StartOutcome :=
  match db.find? (fun q =>
      q.userId == userId && q.flowId == flowConfig.flowId && isActiveOrPaused q.status) with
  | some existing => (db, StartOutcome.resumed existing)
  | none =>
    let fresh : Progress :=
      { userId := userId,
        flowId := flowConfig.flowId,
        sessionId := if sessionId = [] then "session_".toList ++ (Nat.repr now).toList
                     else sessionId,
        currentStep := "welcome".toList,
        status := ProgStatus.active,
        stepProgress := [],
        startedAt := now,
        completedAt := none,
        lastActivity := now }
    (db ++ [fresh], StartOutcome.started fresh)

/-! ### Spec-side definition for the confirmation builder (§4.5)

Used to compare the code's `buildConfirmationData` against the spec's
description; this definition follows the spec's words, not the source. -/

/-- Modelled from the spec: iterate the step's fields in their declared
order, skip fields with no stored value, substitute each stored value into
the field's confirmation template, join with newlines. -/
def specDeclaredOrderBlock (step : Step) (sp : StepProgress) : Str :=
  List.intercalate ['\n']
    ((step.fields.filter
        (fun f => (sp.fieldData.find? (fun fd => fd.fieldId == f.fieldId)).isSome)).map
      (fun f =>
        ((sp.fieldData.find? (fun fd => fd.fieldId == f.fieldId)).map
          (fun fd => renderField f fd.value)).getD []))

/-- All stored field values of a session, as `(stepId, fieldId, value)`
triples in storage order. -/
def storedValues (p : Progress) : List (Str × Str × Str) :=
  (p.stepProgress.map (fun sp =>
    sp.fieldData.map (fun fd => (sp.stepId, fd.fieldId, fd.value)))).flatten

/-! ### Concrete flows, steps and sessions used in the claim instances -/

/-- A required text field `full_name`. -/
def fldA : FieldDef :=
  ⟨"full_name".toList, "Full name".toList, "text".toList, true, none,
   "What is your full name?".toList, some "Name: {value}".toList⟩

/-- A required text field `city`. -/
def fldB : FieldDef :=
  ⟨"city".toList, "City".toList, "text".toList, true, none,
   "Which city do you live in?".toList, some "City: {value}".toList⟩

/-- A required text field `note`. -/
def fldG : FieldDef :=
  ⟨"note".toList, "Note".toList, "text".toList, true, none,
   "Any note to add?".toList, some "Note: {value}".toList⟩

/-- A required date field. -/
def fldDate : FieldDef :=
  ⟨"dob".toList, "DOB".toList, "date".toList, true, none,
   "When were you born?".toList, some "DOB: {value}".toList⟩

/-- Scenario B select field with options Owned / Rented / Provided by employer. -/
def selRent : FieldDef :=
  ⟨"housing".toList, "Housing".toList, "select".toList, true,
   some ⟨some ["Owned".toList, "Rented".toList, "Provided by employer".toList]⟩,
   "What is your housing status?".toList, some "({value})".toList⟩

/-- A select field whose single declared option is the empty string. -/
def selEmpty : FieldDef :=
  ⟨"q".toList, "Q".toList, "select".toList, true, some ⟨some [([] : Str)]⟩,
   "Pick one".toList, none⟩

/-- Terminal checkpoint data-collection step with two required fields. -/
def stepS1 : Step :=
  ⟨"s1".toList, "Basic details".toList, "data_collection".toList, [fldA, fldB],
   some "Please confirm:\n{confirmation_data}".toList, [], true⟩

/-- One-flow configuration around `stepS1`. -/
def flowA : FlowConfig :=
  ⟨"loan".toList, [stepS1], "welcome!".toList, "all done".toList⟩

/-- Session on `stepS1` with only the first required field collected. -/
def progHalf : Progress :=
  ⟨"u1".toList, "loan".toList, "sess1".toList, "s1".toList, ProgStatus.active,
   [⟨"s1".toList, "Basic details".toList, StepStatus.in_progress, some 1, none,
     [⟨"full_name".toList, "Alice".toList, 1, false⟩], none⟩],
   0, none, 1⟩

/-- Session on `stepS1` with both fields collected. -/
def progFull : Progress :=
  ⟨"u1".toList, "loan".toList, "sess1".toList, "s1".toList, ProgStatus.active,
   [⟨"s1".toList, "Basic details".toList, StepStatus.in_progress, some 1, none,
     [⟨"full_name".toList, "Alice".toList, 1, false⟩,
      ⟨"city".toList, "Pune".toList, 2, false⟩], none⟩],
   0, none, 2⟩

/-- Session on `stepS1` whose record is already completed and confirmed. -/
def progDone : Progress :=
  ⟨"u1".toList, "loan".toList, "sess1".toList, "s1".toList, ProgStatus.active,
   [⟨"s1".toList, "Basic details".toList, StepStatus.completed, some 1, some 3,
     [⟨"full_name".toList, "Alice".toList, 1, true⟩,
      ⟨"city".toList, "Pune".toList, 2, true⟩], some "Name: Alice\nCity: Pune".toList⟩],
   0, none, 3⟩

/-- A step-progress record for `stepS1` whose entries were stored in the
reverse of the declared field order. -/
def spRev : StepProgress :=
  ⟨"s1".toList, "Basic details".toList, StepStatus.in_progress, some 1, none,
   [⟨"city".toList, "Pune".toList, 1, false⟩,
    ⟨"full_name".toList, "Alice".toList, 2, false⟩], none⟩

/-- Checkpoint step `s1` pointing at `s2`. -/
def stepT1 : Step :=
  ⟨"s1".toList, "One".toList, "data_collection".toList, [fldA],
   some "Check one:\n{confirmation_data}".toList, "s2".toList, true⟩

/-- Checkpoint step `s2` pointing at `s3`. -/
def stepT2 : Step :=
  ⟨"s2".toList, "Two".toList, "data_collection".toList, [fldG],
   some "Check two:\n{confirmation_data}".toList, "s3".toList, true⟩

/-- Completion step `s3`. -/
def stepT3 : Step :=
  ⟨"s3".toList, "Three".toList, "completion".toList, [], some "Congratulations!".toList,
   [], false⟩

/-- Three-step flow `s1 -> s2 -> s3`. -/
def flowB : FlowConfig :=
  ⟨"fb".toList, [stepT1, stepT2, stepT3], "hi".toList, "flow complete".toList⟩

/-- Session on `stepT1` with its single field collected. -/
def progT1Full : Progress :=
  ⟨"u1".toList, "fb".toList, "sess2".toList, "s1".toList, ProgStatus.active,
   [⟨"s1".toList, "One".toList, StepStatus.in_progress, some 1, none,
     [⟨"full_name".toList, "Alice".toList, 1, false⟩], none⟩],
   0, none, 1⟩

/-- The session of `progT1Full` right after its first confirmation: step `s1`
completed and the session moved to `s2` (no record for `s2` yet). -/
def progAfterS1 : Progress :=
  ⟨"u1".toList, "fb".toList, "sess2".toList, "s2".toList, ProgStatus.active,
   [⟨"s1".toList, "One".toList, StepStatus.completed, some 1, some 4,
     [⟨"full_name".toList, "Alice".toList, 1, true⟩], some "Name: Alice".toList⟩],
   0, none, 4⟩

/-- A non-checkpoint data-collection step with one date field. -/
def stepD : Step :=
  ⟨"d1".toList, "Dates".toList, "data_collection".toList, [fldDate],
   some "OK? {confirmation_data}".toList, [], false⟩

/-- One-step flow around `stepD`. -/
def flowD : FlowConfig :=
  ⟨"fd".toList, [stepD], "hello".toList, "done".toList⟩

/-- Fresh session on `stepD` (no step-progress record yet). -/
def progD : Progress :=
  ⟨"u2".toList, "fd".toList, "sess3".toList, "d1".toList, ProgStatus.active, [], 0, none, 0⟩

/-- An unfinished (active) run of flow `loan` for user `u1`. -/
def qActive : Progress :=
  ⟨"u1".toList, "loan".toList, "sessA".toList, "welcome".toList, ProgStatus.active,
   [], 0, none, 3⟩

/-! ### Lemmas: the extraction matchers never cross a space

These support the round-trip property: a match attempt is insensitive to
anything that follows a space, because no character class of the email,
phone or number pattern contains `' '` and `\b` treats a space like the end
of input. -/

theorem spaceNotWord : isWordChar ' ' = false := by decide

theorem takeWhile_length_le (p : Char → Bool) (s : Str) : (s.takeWhile p).length ≤ s.length := by
  induction s with
  | nil => simp
  | cons a t ih =>
    rw [List.takeWhile_cons]
    by_cases h : p a = true
    · simpa [h] using ih
    · simp [h]

theorem takeWhile_append_sep {p : Char → Bool} {sep : Char} (h : p sep = false) (xs ys : Str) :
    ((xs ++ sep :: ys).takeWhile p) = xs.takeWhile p := by
  induction xs with
  | nil => simp [List.takeWhile_cons, h]
  | cons a t ih => simp only [List.cons_append, List.takeWhile_cons, ih]

theorem dropWhile_append_sep {p : Char → Bool} {sep : Char} (h : p sep = false) (xs ys : Str) :
    ((xs ++ sep :: ys).dropWhile p) = xs.dropWhile p ++ sep :: ys := by
  induction xs with
  | nil => simp [List.dropWhile_cons, h]
  | cons a t ih =>
    by_cases hp : p a = true <;> simp [List.dropWhile_cons, hp, ih]

theorem nextIsWord_append_space (xs ys : Str) :
    nextIsWord (xs ++ ' ' :: ys) = nextIsWord xs := by
  cases xs with
  | nil => simp [nextIsWord, spaceNotWord]
  | cons c t => rfl

theorem takeDigits_append_space (n : Nat) (xs ys : Str) :
    takeDigits n (xs ++ ' ' :: ys) = (takeDigits n xs).map (fun r => r ++ ' ' :: ys) := by
  induction n generalizing xs with
  | zero => rfl
  | succ n ih =>
    cases xs with
    | nil => simp [takeDigits]
    | cons a t =>
      by_cases ha : a.isDigit <;> simp [takeDigits, ha, ih]

theorem phoneSep_append_space (xs ys : Str) :
    phoneSep (xs ++ ' ' :: ys) = ((phoneSep xs).1, (phoneSep xs).2 ++ ' ' :: ys) := by
  cases xs with
  | nil => simp [phoneSep]
  | cons c t =>
    by_cases h : (c == '-' || c == '.') = true <;> simp [phoneSep, h]

theorem phoneAlt1_append_space (xs ys : Str) :
    phoneAlt1 (xs ++ ' ' :: ys) = phoneAlt1 xs := by
  unfold phoneAlt1
  rw [takeWhile_append_sep (by decide), dropWhile_append_sep (by decide),
    nextIsWord_append_space]

theorem phoneAlt2_append_space (xs ys : Str) :
    phoneAlt2 (xs ++ ' ' :: ys) = phoneAlt2 xs := by
  unfold phoneAlt2
  rw [takeDigits_append_space]
  cases h1 : takeDigits 3 xs with
  | none => rfl
  | some r1 =>
    simp only [Option.map_some']
    rw [phoneSep_append_space, takeDigits_append_space]
    cases h2 : takeDigits 3 (phoneSep r1).2 with
    | none => rfl
    | some r3 =>
      simp only [Option.map_some']
      rw [phoneSep_append_space, takeDigits_append_space]
      cases h3 : takeDigits 4 (phoneSep r3).2 with
      | none => rfl
      | some r5 =>
        simp only [Option.map_some']
        rw [nextIsWord_append_space]

theorem matchPhoneAt_append_space (prevW : Bool) (xs ys : Str) :
    matchPhoneAt prevW (xs ++ ' ' :: ys) = matchPhoneAt prevW xs := by
  cases xs with
  | nil =>
    cases prevW <;>
      simp [matchPhoneAt, phoneAlt1, phoneAlt2, takeDigits, List.takeWhile_cons, spaceNotWord]
  | cons c t =>
    simp only [List.cons_append, matchPhoneAt]
    by_cases hb : (prevW == isWordChar c) = true
    · simp [hb]
    · simp only [hb]
      simp only [← List.cons_append]
      rw [phoneAlt1_append_space, phoneAlt2_append_space]

theorem numTail_append_space (consumed : Nat) (xs ys : Str) :
    numTail consumed (xs ++ ' ' :: ys) = numTail consumed xs := by
  match xs with
  | [] =>
    match ys with
    | [] => simp [numTail, nextIsWord, spaceNotWord]
    | [y1] => simp [numTail, nextIsWord, spaceNotWord]
    | y1 :: y2 :: t => simp [numTail, nextIsWord, spaceNotWord]
  | [c] =>
    match ys with
    | [] => simp [numTail, nextIsWord]
    | y1 :: t => simp [numTail, nextIsWord]
  | [c, a] => simp [numTail, nextIsWord]
  | c :: a :: b :: r2 =>
    simp only [List.cons_append, numTail, nextIsWord_append_space]
    simp [nextIsWord]

theorem numLoop_append_space_aux (ys : Str) :
    ∀ (N : Nat) (xs : Str), xs.length ≤ N →
      ∀ consumed, numLoop consumed (xs ++ ' ' :: ys) = numLoop consumed xs := by
  intro N
  induction N with
  | zero =>
    intro xs h consumed
    have hx : xs = [] := List.eq_nil_of_length_eq_zero (Nat.le_zero.mp h)
    subst hx
    match ys with
    | [] => simp [numLoop, numTail, nextIsWord, spaceNotWord]
    | [y1] => simp [numLoop, numTail, nextIsWord, spaceNotWord]
    | [y1, y2] => simp [numLoop, numTail, nextIsWord, spaceNotWord]
    | y1 :: y2 :: y3 :: t => simp [numLoop, numTail, nextIsWord, spaceNotWord]
  | succ N ih =>
    intro xs h consumed
    match xs with
    | [] =>
      match ys with
      | [] => simp [numLoop, numTail, nextIsWord, spaceNotWord]
      | [y1] => simp [numLoop, numTail, nextIsWord, spaceNotWord]
      | [y1, y2] => simp [numLoop, numTail, nextIsWord, spaceNotWord]
      | y1 :: y2 :: y3 :: t => simp [numLoop, numTail, nextIsWord, spaceNotWord]
    | [c] =>
      have hnt := numTail_append_space consumed [c] ys
      match ys with
      | [] => simpa [numLoop] using hnt
      | [y1] => simpa [numLoop] using hnt
      | y1 :: y2 :: t => simpa [numLoop, nextIsWord, spaceNotWord] using hnt
    | [c, a] =>
      have hnt := numTail_append_space consumed [c, a] ys
      match ys with
      | [] => simpa [numLoop] using hnt
      | y1 :: t => simpa [numLoop, nextIsWord, spaceNotWord] using hnt
    | [c, a, b] =>
      have hnt := numTail_append_space consumed [c, a, b] ys
      simpa [numLoop, nextIsWord, spaceNotWord] using hnt
    | c :: a :: b :: d :: r2 =>
      have hr2 : r2.length ≤ N := by
        simp [List.length_cons] at h
        omega
      have hnt := numTail_append_space consumed (c :: a :: b :: d :: r2) ys
      simp only [List.cons_append, numLoop]
      by_cases hc : (c == ',' && a.isDigit && b.isDigit && d.isDigit) = true
      · simp only [hc, if_pos]
        simp only [List.append_eq]
        rw [ih r2 hr2 (consumed + 4)]
        cases numLoop (consumed + 4) r2 with
        | some n => rfl
        | none => simpa [List.cons_append] using hnt
      · simp only [hc, if_neg]
        simpa [List.cons_append] using hnt

theorem numLoop_append_space (consumed : Nat) (xs ys : Str) :
    numLoop consumed (xs ++ ' ' :: ys) = numLoop consumed xs :=
  numLoop_append_space_aux ys xs.length xs le_rfl consumed

theorem matchNumberAt_append_space (prevW : Bool) (xs ys : Str) :
    matchNumberAt prevW (xs ++ ' ' :: ys) = matchNumberAt prevW xs := by
  cases xs with
  | nil =>
    cases prevW <;>
      simp [matchNumberAt, List.takeWhile_cons, spaceNotWord]
  | cons c t =>
    simp only [List.cons_append, matchNumberAt]
    by_cases hb : (prevW == isWordChar c) = true
    · simp [hb]
    · simp only [hb]
      simp only [← List.cons_append]
      rw [takeWhile_append_sep (by decide), dropWhile_append_sep (by decide),
        numLoop_append_space]

theorem findSome?_congr {α β : Type} {f g : α → Option β} {l : List α}
    (h : ∀ x ∈ l, f x = g x) : l.findSome? f = l.findSome? g := by
  induction l with
  | nil => rfl
  | cons a t ih =>
    rw [List.findSome?_cons, List.findSome?_cons, h a (List.mem_cons_self a t)]
    cases g a with
    | some b => rfl
    | none => exact ih (fun x hx => h x (List.mem_cons_of_mem a hx))

theorem emailTldSearch_append_space (after ys : Str) (tldLen : Nat)
    (h : tldLen ≤ after.length) :
    emailTldSearch (after ++ ' ' :: ys) tldLen = emailTldSearch after tldLen := by
  unfold emailTldSearch
  apply findSome?_congr
  intro j hj
  have hj' : j ≤ tldLen := by
    have := List.mem_range.mp (List.mem_reverse.mp hj)
    omega
  by_cases h2 : 2 ≤ j
  · simp only [if_pos h2]
    have hj1 : j - 1 < after.length := by omega
    have hget : (after ++ ' ' :: ys)[j - 1]? = after[j - 1]? := by
      rw [List.getElem?_append, if_pos hj1]
    have hdrop : (after ++ ' ' :: ys).drop j = after.drop j ++ ' ' :: ys := by
      rw [List.drop_append_eq_append_drop,
        Nat.sub_eq_zero_of_le (show j ≤ after.length by omega), List.drop_zero]
    rw [hget, hdrop, nextIsWord_append_space]
  · simp [h2]

theorem emailDomSearch_append_space (dom r3 ys : Str) :
    emailDomSearch dom (r3 ++ ' ' :: ys) = emailDomSearch dom r3 := by
  unfold emailDomSearch
  apply findSome?_congr
  intro k _
  by_cases h1 : (1 ≤ k && (dom[k]? == some '.')) = true
  · simp only [if_pos h1]
    rw [show dom.drop (k + 1) ++ (r3 ++ ' ' :: ys) = (dom.drop (k + 1) ++ r3) ++ ' ' :: ys from
      (List.append_assoc _ _ _).symm]
    rw [takeWhile_append_sep (by decide),
      emailTldSearch_append_space _ _ _ (takeWhile_length_le _ _)]
  · simp [h1]

theorem matchEmailAt_append_space (prevW : Bool) (xs ys : Str) :
    matchEmailAt prevW (xs ++ ' ' :: ys) = matchEmailAt prevW xs := by
  cases xs with
  | nil =>
    cases prevW <;>
      simp [matchEmailAt, List.takeWhile_cons, spaceNotWord, isLocalChar]
  | cons c t =>
    simp only [List.cons_append, matchEmailAt]
    by_cases hb : (prevW == isWordChar c) = true
    · simp [hb]
    · simp only [hb]
      simp only [← List.cons_append]
      rw [takeWhile_append_sep (by decide), dropWhile_append_sep (by decide)]
      cases hd : (c :: t).dropWhile isLocalChar with
      | nil => simp
      | cons c2 r2 =>
        simp only [List.cons_append]
        by_cases hat : (c2 == '@') = true
        · simp only [hat, if_pos]
          rw [takeWhile_append_sep (by decide), dropWhile_append_sep (by decide),
            emailDomSearch_append_space]
        · simp [hat]

theorem matchEmailAt_nil (prevW : Bool) : matchEmailAt prevW [] = none := rfl

theorem matchPhoneAt_nil (prevW : Bool) : matchPhoneAt prevW [] = none := rfl

theorem matchNumberAt_nil (prevW : Bool) : matchNumberAt prevW [] = none := rfl

theorem scanFrom_append_space (mAt : Bool → Str → Option Nat)
    (hM0 : ∀ prevW, mAt prevW [] = none)
    (hM1 : ∀ prevW xs ys, mAt prevW (xs ++ ' ' :: ys) = mAt prevW xs)
    (xs : Str) : ∀ (prevW : Bool) (v : Str), scanFrom mAt prevW xs = none →
      scanFrom mAt prevW (xs ++ ' ' :: v) = scanFrom mAt false v := by
  induction xs with
  | nil =>
    intro prevW v _
    have h0 : mAt prevW (' ' :: v) = none := by
      have h' := hM1 prevW [] v
      simpa [hM0] using h'
    simp only [List.nil_append, scanFrom, h0, spaceNotWord]
  | cons c t ih =>
    intro prevW v h
    have hcc : mAt prevW (c :: (t ++ ' ' :: v)) = mAt prevW (c :: t) := by
      have h' := hM1 prevW (c :: t) v
      simpa [List.cons_append] using h'
    simp only [scanFrom] at h
    cases hma : mAt prevW (c :: t) with
    | some n => rw [hma] at h; simp at h
    | none =>
      rw [hma] at h
      simp only [List.cons_append, List.append_eq, scanFrom, hcc, hma]
      exact ih (isWordChar c) v h

theorem firstMatch_roundtrip (mAt : Bool → Str → Option Nat)
    (hM0 : ∀ prevW, mAt prevW [] = none)
    (hM1 : ∀ prevW xs ys, mAt prevW (xs ++ ' ' :: ys) = mAt prevW xs)
    (pfx v : Str) (h1 : firstMatch mAt pfx = none) (h2 : firstMatch mAt v = some v) :
    firstMatch mAt (pfx ++ ' ' :: v) = some v := by
  unfold firstMatch at h1 h2 ⊢
  rw [scanFrom_append_space mAt hM0 hM1 pfx false v h1, h2]

theorem extractFieldValue_email (f : FieldDef) (h : f.fieldType = "email".toList) (msg : Str) :
    extractFieldValue msg f = firstMatch matchEmailAt msg := by
  simp only [extractFieldValue, h]
  rw [if_neg (by decide)]
  simp

theorem extractFieldValue_phone (f : FieldDef) (h : f.fieldType = "phone".toList) (msg : Str) :
    extractFieldValue msg f = firstMatch matchPhoneAt msg := by
  simp only [extractFieldValue, h]
  rw [if_neg (by decide), if_neg (by decide)]
  simp

theorem extractFieldValue_number (f : FieldDef) (h : f.fieldType = "number".toList) (msg : Str) :
    extractFieldValue msg f = firstMatch matchNumberAt msg := by
  simp only [extractFieldValue, h]
  rw [if_neg (by decide), if_neg (by decide), if_neg (by decide), if_neg (by decide)]
  simp

/-- C7: extraction round-trips embedded values.  For every field of type
email, phone or number, every well-formed sample value (one the extractor
matches in full on its own) and every prefix containing no competing match
(the extractor finds nothing in it), extracting from
`prefix ++ " " ++ value` returns exactly the embedded value. -/
theorem extraction_roundtrip_affixed_value (f : FieldDef) (pfx v : Str)
    (htype : f.fieldType = "email".toList ∨ f.fieldType = "phone".toList ∨
      f.fieldType = "number".toList)
    (hpfx : extractFieldValue pfx f = none)
    (hv : extractFieldValue v f = some v) :
    extractFieldValue (pfx ++ ' ' :: v) f = some v := by
  rcases htype with h | h | h
  · rw [extractFieldValue_email f h] at hpfx hv ⊢
    exact firstMatch_roundtrip _ matchEmailAt_nil matchEmailAt_append_space pfx v hpfx hv
  · rw [extractFieldValue_phone f h] at hpfx hv ⊢
    exact firstMatch_roundtrip _ matchPhoneAt_nil matchPhoneAt_append_space pfx v hpfx hv
  · rw [extractFieldValue_number f h] at hpfx hv ⊢
    exact firstMatch_roundtrip _ matchNumberAt_nil matchNumberAt_append_space pfx v hpfx hv

/-- Witness for C7 at concrete inputs of all three field types. -/
theorem extraction_roundtrip_affixed_value_witness :
    extractFieldValue ("reach me at".toList ++ ' ' :: "a@b.cd".toList)
      ⟨"f1".toList, "Email".toList, "email".toList, true, none, "p".toList, none⟩ =
      some "a@b.cd".toList ∧
    extractFieldValue ("call".toList ++ ' ' :: "5551234567".toList)
      ⟨"f2".toList, "Phone".toList, "phone".toList, true, none, "p".toList, none⟩ =
      some "5551234567".toList ∧
    extractFieldValue ("amount".toList ++ ' ' :: "1,234.56".toList)
      ⟨"f3".toList, "Num".toList, "number".toList, true, none, "p".toList, none⟩ =
      some "1,234.56".toList :=
  ⟨extraction_roundtrip_affixed_value _ _ _ (Or.inl rfl) (by decide) (by decide),
   extraction_roundtrip_affixed_value _ _ _ (Or.inr (Or.inl rfl)) (by decide) (by decide),
   extraction_roundtrip_affixed_value _ _ _ (Or.inr (Or.inr rfl)) (by decide) (by decide)⟩

/-! ### Lemmas: the intent classifier -/

theorem confidenceOf_nonneg (kws : List Str) (t : Str) : 0 ≤ confidenceOf kws t := by
  unfold confidenceOf
  positivity

theorem foldl_stepBest_spec (t : Str) :
    ∀ (l : List (Str × List Str)) (init : Intent),
      (l.foldl (stepBest t) init = init ∧ ∀ q ∈ l, confidenceOf q.2 t ≤ init.confidence) ∨
      (∃ l₁ nk l₂, l = l₁ ++ nk :: l₂ ∧
        l.foldl (stepBest t) init = ⟨nk.1, confidenceOf nk.2 t⟩ ∧
        init.confidence < confidenceOf nk.2 t ∧
        (∀ q ∈ l₁, confidenceOf q.2 t < confidenceOf nk.2 t) ∧
        (∀ q ∈ l₂, confidenceOf q.2 t ≤ confidenceOf nk.2 t)) := by
  intro l
  induction l with
  | nil => intro init; left; exact ⟨rfl, by simp⟩
  | cons p l' ih =>
    intro init
    by_cases hlt : init.confidence < confidenceOf p.2 t
    · have hfold : (p :: l').foldl (stepBest t) init =
          l'.foldl (stepBest t) ⟨p.1, confidenceOf p.2 t⟩ := by
        simp [List.foldl_cons, stepBest, hlt]
      rcases ih ⟨p.1, confidenceOf p.2 t⟩ with ⟨heq, hall⟩ |
        ⟨l₁, nk, l₂, hsplit, heq, hgt, hbefore, hafter⟩
      · right
        refine ⟨[], p, l', rfl, ?_, hlt, by simp, ?_⟩
        · rw [hfold, heq]
        · exact hall
      · right
        refine ⟨p :: l₁, nk, l₂, by rw [hsplit]; rfl, by rw [hfold, heq], lt_trans hlt hgt,
          ?_, hafter⟩
        intro q hq
        rcases List.mem_cons.mp hq with rfl | hq'
        · exact hgt
        · exact hbefore q hq'
    · have hfold : (p :: l').foldl (stepBest t) init = l'.foldl (stepBest t) init := by
        simp [List.foldl_cons, stepBest, hlt]
      have hple : confidenceOf p.2 t ≤ init.confidence := not_lt.mp hlt
      rcases ih init with ⟨heq, hall⟩ | ⟨l₁, nk, l₂, hsplit, heq, hgt, hbefore, hafter⟩
      · left
        refine ⟨by rw [hfold, heq], ?_⟩
        intro q hq
        rcases List.mem_cons.mp hq with rfl | hq'
        · exact hple
        · exact hall q hq'
      · right
        refine ⟨p :: l₁, nk, l₂, by rw [hsplit]; rfl, by rw [hfold, heq], hgt, ?_, hafter⟩
        intro q hq
        rcases List.mem_cons.mp hq with rfl | hq'
        · exact lt_of_le_of_lt hple hgt
        · exact hbefore q hq'

/-- C5: the intent classifier scores each category as
`|matched keywords| / |keywords|`, keeps a category only on strictly greater
confidence while iterating the table in registration order (so the winner is
the earliest category attaining the maximum — equal nonzero confidences
resolve to the earlier-registered category), and defaults to
`{name: "unknown", confidence: 0}` when no category scores above zero. -/
theorem classify_intent_first_strict_max (text : Str) :
    ((classifyIntent text).name = "unknown".toList ∧ (classifyIntent text).confidence = 0 ∧
      ∀ nk ∈ intentKeywords, confidenceOf nk.2 (lc text) = 0) ∨
    (∃ l₁ nk l₂, intentKeywords = l₁ ++ nk :: l₂ ∧
      classifyIntent text = ⟨nk.1, confidenceOf nk.2 (lc text)⟩ ∧
      0 < confidenceOf nk.2 (lc text) ∧
      (∀ q ∈ l₁, confidenceOf q.2 (lc text) < confidenceOf nk.2 (lc text)) ∧
      (∀ q ∈ l₂, confidenceOf q.2 (lc text) ≤ confidenceOf nk.2 (lc text))) := by
  have hclass : classifyIntent text =
      intentKeywords.foldl (stepBest (lc text)) ⟨"unknown".toList, 0⟩ := rfl
  rcases foldl_stepBest_spec (lc text) intentKeywords ⟨"unknown".toList, 0⟩ with
    ⟨heq, hall⟩ | ⟨l₁, nk, l₂, hsplit, heq, hgt, hbefore, hafter⟩
  · left
    refine ⟨by rw [hclass, heq], by rw [hclass, heq], ?_⟩
    intro nk hnk
    have h1 := hall nk hnk
    have h2 := confidenceOf_nonneg nk.2 (lc text)
    exact le_antisymm h1 h2
  · right
    exact ⟨l₁, nk, l₂, hsplit, by rw [hclass, heq], hgt, hbefore, hafter⟩

/-! ### Lemmas: progress-record updates -/

theorem find?_updateFirstRecord (l : List StepProgress) (sid : Str)
    (f : StepProgress → StepProgress) (hf : ∀ sp, (f sp).stepId = sp.stepId) :
    (updateFirstRecord l sid f).find? (fun sp => sp.stepId == sid) =
      (l.find? (fun sp => sp.stepId == sid)).map f := by
  induction l with
  | nil => rfl
  | cons sp rest ih =>
    by_cases h : sp.stepId = sid
    · simp [updateFirstRecord, h, List.find?_cons, hf]
    · simp [updateFirstRecord, h, List.find?_cons, ih]

theorem storedValues_updateFirstRecord (l : List StepProgress) (sid : Str)
    (f : StepProgress → StepProgress) (hf : ∀ sp, (f sp).stepId = sp.stepId)
    (hv : ∀ sp, (f sp).fieldData.map (fun fd => (fd.fieldId, fd.value)) =
      sp.fieldData.map (fun fd => (fd.fieldId, fd.value))) :
    (updateFirstRecord l sid f).map
        (fun sp => sp.fieldData.map (fun fd => (sp.stepId, fd.fieldId, fd.value))) =
      l.map (fun sp => sp.fieldData.map (fun fd => (sp.stepId, fd.fieldId, fd.value))) := by
  have key : ∀ (x : Str) (fds : List FieldData),
      fds.map (fun fd => (x, fd.fieldId, fd.value)) =
        (fds.map (fun fd => (fd.fieldId, fd.value))).map (fun q => (x, q.1, q.2)) := by
    intro x fds
    rw [List.map_map]
    rfl
  induction l with
  | nil => rfl
  | cons sp rest ih =>
    by_cases h : sp.stepId = sid
    · simp only [updateFirstRecord, if_pos h, List.map_cons, ih]
      rw [key ((f sp).stepId), key sp.stepId, hv, hf]
    · simp only [updateFirstRecord, if_neg h, List.map_cons, ih]

theorem storedValues_confirmStepData (p : Progress) (sid data : Str) (now : Nat) :
    storedValues (confirmStepData p sid data now) = storedValues p := by
  unfold confirmStepData
  cases h : p.stepProgress.find? (fun sp => sp.stepId == sid) with
  | none => rfl
  | some sp0 =>
    unfold storedValues
    simp only []
    rw [storedValues_updateFirstRecord]
    · intro sp
      rfl
    · intro sp
      rw [List.map_map]
      rfl

theorem confirmStepData_currentStep (p : Progress) (sid data : Str) (now : Nat) :
    (confirmStepData p sid data now).currentStep = p.currentStep := by
  unfold confirmStepData
  cases p.stepProgress.find? (fun sp => sp.stepId == sid) <;> rfl

theorem confirmStepData_status (p : Progress) (sid data : Str) (now : Nat) :
    (confirmStepData p sid data now).status = p.status := by
  unfold confirmStepData
  cases p.stepProgress.find? (fun sp => sp.stepId == sid) <;> rfl

theorem confirmStepData_spec (p : Progress) (sid data : Str) (now : Nat)
    (sp0 : StepProgress)
    (hfind : p.stepProgress.find? (fun sp => sp.stepId == sid) = some sp0) :
    ∃ sp', (confirmStepData p sid data now).stepProgress.find?
        (fun sp => sp.stepId == sid) = some sp' ∧
      sp'.status = StepStatus.completed ∧
      sp'.completedAt = some now ∧
      sp'.confirmationData = some data ∧
      (∀ fd ∈ sp'.fieldData, fd.confirmed = true) ∧
      sp'.fieldData.map (fun fd => (fd.fieldId, fd.value)) =
        sp0.fieldData.map (fun fd => (fd.fieldId, fd.value)) := by
  unfold confirmStepData
  rw [hfind]
  simp only []
  rw [show (updateFirstRecord p.stepProgress sid fun sp =>
      { sp with
        status := StepStatus.completed,
        completedAt := some now,
        confirmationData := some data,
        fieldData := sp.fieldData.map (fun fd => { fd with confirmed := true }) }).find?
        (fun sp => sp.stepId == sid) =
      (p.stepProgress.find? (fun sp => sp.stepId == sid)).map _ from
    find?_updateFirstRecord _ _ _ (fun sp => rfl), hfind]
  refine ⟨_, rfl, rfl, rfl, rfl, ?_, ?_⟩
  · intro fd hfd
    obtain ⟨fd0, _, rfl⟩ := List.mem_map.mp hfd
    rfl
  · rw [List.map_map]
    rfl

/-- C10: confirming a step's data is one atomic operation — it marks the
step-progress record completed, stamps `completedAt`, stores the
confirmation snapshot, and sets `confirmed := true` on every stored field
value while preserving the `(fieldId, value)` pairs.  `confirmStepData` is
the engine's only operation that sets a step's progress status to
`completed`, so every step completed by the engine carries only confirmed
field values at the moment of completion. -/
theorem confirm_step_data_confirms_all_fields (p : Progress) (sid data : Str) (now : Nat)
    (sp0 : StepProgress)
    (hfind : p.stepProgress.find? (fun sp => sp.stepId == sid) = some sp0) :
    ∃ sp', (confirmStepData p sid data now).stepProgress.find?
        (fun sp => sp.stepId == sid) = some sp' ∧
      sp'.status = StepStatus.completed ∧
      sp'.completedAt = some now ∧
      sp'.confirmationData = some data ∧
      (∀ fd ∈ sp'.fieldData, fd.confirmed = true) ∧
      sp'.fieldData.map (fun fd => (fd.fieldId, fd.value)) =
        sp0.fieldData.map (fun fd => (fd.fieldId, fd.value)) :=
  confirmStepData_spec p sid data now sp0 hfind

/-- Witness for C10 on a concrete session. -/
theorem confirm_step_data_confirms_all_fields_witness :
    ∃ sp', (confirmStepData progFull "s1".toList "Name: Alice".toList 9).stepProgress.find?
        (fun sp => sp.stepId == "s1".toList) = some sp' ∧
      sp'.status = StepStatus.completed ∧
      sp'.completedAt = some 9 ∧
      sp'.confirmationData = some "Name: Alice".toList ∧
      (∀ fd ∈ sp'.fieldData, fd.confirmed = true) ∧
      sp'.fieldData.map (fun fd => (fd.fieldId, fd.value)) =
        [("full_name".toList, "Alice".toList), ("city".toList, "Pune".toList)] := by
  obtain ⟨sp', h1, h2, h3, h4, h5, h6⟩ :=
    confirm_step_data_confirms_all_fields progFull "s1".toList "Name: Alice".toList 9 _ rfl
  exact ⟨sp', h1, h2, h3, h4, h5, by rw [h6]; decide⟩

/-- C9: starting a flow is idempotent for a user with an unfinished run —
when an `active`/`paused` progress for this user and flow exists, the start
route returns the first such record unchanged and stores nothing new; a
fresh record (at step `welcome`, status `active`, empty progress) is created
only when no such record exists. -/
theorem start_flow_idempotent_unfinished (db : List Progress) (flow : FlowConfig)
    (userId sessionId : Str) (now : Nat) :
    (∀ q0, db.find? (fun q => q.userId == userId && q.flowId == flow.flowId &&
        isActiveOrPaused q.status) = some q0 →
      startFlow db flow userId sessionId now = (db, StartOutcome.resumed q0) ∧
      q0 ∈ db ∧ q0.userId = userId ∧ q0.flowId = flow.flowId ∧
      isActiveOrPaused q0.status = true) ∧
    (db.find? (fun q => q.userId == userId && q.flowId == flow.flowId &&
        isActiveOrPaused q.status) = none →
      ∃ fresh, startFlow db flow userId sessionId now =
          (db ++ [fresh], StartOutcome.started fresh) ∧
        fresh.status = ProgStatus.active ∧ fresh.userId = userId ∧
        fresh.flowId = flow.flowId ∧ fresh.currentStep = "welcome".toList ∧
        fresh.stepProgress = [] ∧
        (startFlow db flow userId sessionId now).1.length = db.length + 1) := by
  constructor
  · intro q0 h
    have hq := List.find?_some h
    simp only [Bool.and_eq_true, beq_iff_eq] at hq
    refine ⟨?_, List.mem_of_find?_eq_some h, hq.1.1, hq.1.2, hq.2⟩
    unfold startFlow
    rw [h]
  · intro h
    unfold startFlow
    rw [h]
    exact ⟨_, rfl, rfl, rfl, rfl, rfl, rfl, by simp⟩

/-- Witness for C9: resuming an existing active run, and creating a fresh
one on an empty store. -/
theorem start_flow_idempotent_unfinished_witness :
    startFlow [qActive] flowA "u1".toList "sessB".toList 11 =
      ([qActive], StartOutcome.resumed qActive) ∧
    ∃ fresh, startFlow [] flowA "u1".toList "sessB".toList 11 =
      ([fresh], StartOutcome.started fresh) := by
  constructor
  · exact ((start_flow_idempotent_unfinished [qActive] flowA "u1".toList "sessB".toList 11).1
      qActive (by decide)).1
  · obtain ⟨fresh, hf, -, -, -, -, -, -⟩ :=
      (start_flow_idempotent_unfinished [] flowA "u1".toList "sessB".toList 11).2 rfl
    exact ⟨fresh, hf⟩

/-- C8: extraction failure is never fatal.  When the session is on a
data-collection step, the utterance is not treated as a checkpoint
confirmation/correction, and the next unfilled field's value cannot be
extracted, the engine returns a normal conversational response consisting of
the clarification prefix followed by the field's original prompt unchanged,
and no stored field value of the session changes (no error is raised — the
translated engine is a total function returning this response). -/
theorem extraction_failure_reprompts (msg : Str) (p : Progress) (flow : FlowConfig)
    (now : Nat) (step : Step) (f : FieldDef)
    (hstep : flow.steps.find? (fun st => st.stepId == p.currentStep) = some step)
    (hdc : step.stepType = "data_collection".toList)
    (hni : ¬((classifyIntent (lc msg)).name = "confirmation".toList ∧
      step.isCheckpoint = true))
    (hnc : ¬((classifyIntent (lc msg)).name = "correction".toList ∧
      step.isCheckpoint = true))
    (hn : getNextFieldToCollect step (initStepProgress p step now) = some f)
    (hx : extractFieldValue msg f = none) :
    processOnboardingMessage msg p flow now =
      (initStepProgress p step now, clarifyPrefix ++ f.prompt) ∧
    storedValues (initStepProgress p step now) = storedValues p := by
  constructor
  · simp only [processOnboardingMessage, hstep]
    rw [if_neg hni, if_neg hnc, if_pos hdc]
    simp only [handleDataCollection, hn, hx]
    rfl
  · unfold initStepProgress
    cases h : getCurrentStepProgress p with
    | some _ => rfl
    | none =>
      unfold storedValues
      simp

set_option maxRecDepth 8000 in
/-- Witness for C8: a date field, an utterance with no date-like substring. -/
theorem extraction_failure_reprompts_witness :
    (processOnboardingMessage "tomorrow maybe".toList progD flowD 5).2 =
      clarifyPrefix ++ "When were you born?".toList ∧
    storedValues (processOnboardingMessage "tomorrow maybe".toList progD flowD 5).1 =
      storedValues progD := by
  obtain ⟨h1, h2⟩ := extraction_failure_reprompts "tomorrow maybe".toList progD flowD 5
    stepD fldDate (by decide) rfl (by decide) (by decide) (by decide) (by decide)
  constructor
  · rw [h1]
    rfl
  · rw [h1]
    exact h2


set_option maxRecDepth 8000 in
/-- C1 (code bug): processing the utterance `"yes"` — classified as the
`confirmation` intent — on checkpoint step `s1` whose required field `city`
has no stored value marks the step-progress record `completed` anyway: the
engine's confirmation branch fires before data collection and
`confirmStepData` never consults `required`. -/
theorem confirmation_completes_step_with_missing_required_field :
    ((processOnboardingMessage "yes".toList progHalf flowA 7).1.stepProgress.find?
        (fun sp => sp.stepId == "s1".toList)).map (fun sp => sp.status) =
      some StepStatus.completed ∧
    fldB.required = true ∧
    ((processOnboardingMessage "yes".toList progHalf flowA 7).1.stepProgress.find?
        (fun sp => sp.stepId == "s1".toList)).map
        (fun sp => sp.fieldData.find? (fun fd => fd.fieldId == "city".toList)) =
      some none := by
  decide

set_option maxRecDepth 8000 in
/-- Counterexample to C2 as stated: on a fully-collected checkpoint step
whose `nextStepId` is empty, a confirmation utterance leaves the session's
status `active` (never setting it to `completed`) and answers with a fixed
acknowledgement. -/
theorem empty_next_step_leaves_session_active :
    (processOnboardingMessage "yes".toList progFull flowA 7).1.status = ProgStatus.active ∧
    (processOnboardingMessage "yes".toList progFull flowA 7).2 = thankYouResponse ∧
    ProgStatus.active ≠ ProgStatus.completed := by
  decide

/-! ### Lemmas: handleStepConfirmation -/

theorem handleStepConfirmation_fst_stepProgress (p : Progress) (step : Step)
    (flow : FlowConfig) (now : Nat) :
    (handleStepConfirmation p step flow now).1.stepProgress =
      (confirmStepData p step.stepId
        (buildConfirmationData step (getCurrentStepProgress p)) now).stepProgress := by
  unfold handleStepConfirmation moveToNextStep
  by_cases h : step.nextStep = []
  · simp [h]
  · simp only [if_neg h]
    cases flow.steps.find? (fun st => st.stepId == step.nextStep) with
    | none => rfl
    | some ns =>
      by_cases h1 : ns.stepType = "data_collection".toList
      · simp only [if_pos h1]
        cases ns.fields.head? <;> rfl
      · simp only [if_neg h1]
        split <;> rfl

theorem handleStepConfirmation_fst_currentStep (p : Progress) (step : Step)
    (flow : FlowConfig) (now : Nat) (hne : step.nextStep ≠ []) :
    (handleStepConfirmation p step flow now).1.currentStep = step.nextStep := by
  unfold handleStepConfirmation moveToNextStep
  simp only [if_neg hne]
  cases flow.steps.find? (fun st => st.stepId == step.nextStep) with
  | none => rfl
  | some ns =>
    by_cases h1 : ns.stepType = "data_collection".toList
    · simp only [if_pos h1]
      cases ns.fields.head? <;> rfl
    · simp only [if_neg h1]
      split <;> rfl

theorem handleStepConfirmation_terminal (p : Progress) (step : Step)
    (flow : FlowConfig) (now : Nat) (h : step.nextStep = []) :
    handleStepConfirmation p step flow now =
      (confirmStepData p step.stepId
        (buildConfirmationData step (getCurrentStepProgress p)) now, thankYouResponse) := by
  unfold handleStepConfirmation
  simp only [if_pos h]
  rfl

theorem handleStepConfirmation_snd_dc (p : Progress) (step : Step) (flow : FlowConfig)
    (now : Nat) (ns : Step) (f0 : FieldDef) (fs : List FieldDef)
    (hne : step.nextStep ≠ [])
    (hns : flow.steps.find? (fun st => st.stepId == step.nextStep) = some ns)
    (hdc : ns.stepType = "data_collection".toList) (hf : ns.fields = f0 :: fs) :
    (handleStepConfirmation p step flow now).2 = f0.prompt := by
  unfold handleStepConfirmation
  simp only [if_neg hne, hns, if_pos hdc, hf]
  rfl

theorem handleStepConfirmation_snd_completion (p : Progress) (step : Step)
    (flow : FlowConfig) (now : Nat) (ns : Step)
    (hne : step.nextStep ≠ [])
    (hns : flow.steps.find? (fun st => st.stepId == step.nextStep) = some ns)
    (hc : ns.stepType = "completion".toList) :
    (handleStepConfirmation p step flow now).2 =
      jsOrStr ns.confirmationMessage flow.completionMessage := by
  unfold handleStepConfirmation
  have hnd : ¬ns.stepType = "data_collection".toList := by
    rw [hc]
    decide
  simp only [if_neg hne, hns, if_neg hnd, if_pos hc]
  rfl

theorem processOnboardingMessage_confirmation (msg : Str) (p : Progress)
    (flow : FlowConfig) (now : Nat) (step : Step)
    (hstep : flow.steps.find? (fun st => st.stepId == p.currentStep) = some step)
    (hcp : step.isCheckpoint = true)
    (hint : (classifyIntent (lc msg)).name = "confirmation".toList) :
    processOnboardingMessage msg p flow now = handleStepConfirmation p step flow now := by
  simp only [processOnboardingMessage, hstep]
  rw [if_pos ⟨hint, hcp⟩]

/-- C2 (amended): a `confirmation` intent on a checkpoint step completes the
current step-progress record and stores the rendered confirmation block as
its snapshot.  If `nextStepId` names a `data_collection` step, the session's
`currentStepId` moves there and the response is its first field's prompt; if
it names a `completion` step, the session also moves there and the response
is that step's own `confirmationMessage` when non-empty, else the flow's
completion message.  If `nextStepId` is empty, the session's status is left
unchanged (the code never sets it to `completed`) and the response is the
fixed acknowledgement text. -/
theorem confirmation_outcome_after_all_fields (msg : Str) (p : Progress)
    (flow : FlowConfig) (now : Nat) (step : Step) (sp0 : StepProgress)
    (hstep : flow.steps.find? (fun st => st.stepId == p.currentStep) = some step)
    (hcp : step.isCheckpoint = true)
    (hint : (classifyIntent (lc msg)).name = "confirmation".toList)
    (hrec : p.stepProgress.find? (fun sp => sp.stepId == step.stepId) = some sp0)
    (_hall : getRemainingFields step p = []) :
    (((processOnboardingMessage msg p flow now).1.stepProgress.find?
        (fun sp => sp.stepId == step.stepId)).map
        (fun sp => (sp.status, sp.confirmationData))) =
      some (StepStatus.completed,
        some (buildConfirmationData step (getCurrentStepProgress p))) ∧
    (step.nextStep = [] →
      processOnboardingMessage msg p flow now =
        (confirmStepData p step.stepId
          (buildConfirmationData step (getCurrentStepProgress p)) now,
         thankYouResponse) ∧
      (processOnboardingMessage msg p flow now).1.status = p.status) ∧
    (∀ ns, step.nextStep ≠ [] →
      flow.steps.find? (fun st => st.stepId == step.nextStep) = some ns →
      (processOnboardingMessage msg p flow now).1.currentStep = step.nextStep ∧
      (∀ f0 fs, ns.stepType = "data_collection".toList → ns.fields = f0 :: fs →
        (processOnboardingMessage msg p flow now).2 = f0.prompt) ∧
      (ns.stepType = "completion".toList →
        (processOnboardingMessage msg p flow now).2 =
          jsOrStr ns.confirmationMessage flow.completionMessage)) := by
  rw [processOnboardingMessage_confirmation msg p flow now step hstep hcp hint]
  refine ⟨?_, ?_, ?_⟩
  · rw [handleStepConfirmation_fst_stepProgress]
    obtain ⟨sp', h1, h2, _, h4, _, _⟩ := confirmStepData_spec p step.stepId
      (buildConfirmationData step (getCurrentStepProgress p)) now sp0 hrec
    rw [h1]
    simp [h2, h4]
  · intro hterm
    refine ⟨handleStepConfirmation_terminal p step flow now hterm, ?_⟩
    rw [handleStepConfirmation_terminal p step flow now hterm]
    exact confirmStepData_status p step.stepId _ now
  · intro ns hne hns
    exact ⟨handleStepConfirmation_fst_currentStep p step flow now hne,
      fun f0 fs hdc hf => handleStepConfirmation_snd_dc p step flow now ns f0 fs hne hns hdc hf,
      fun hc => handleStepConfirmation_snd_completion p step flow now ns hne hns hc⟩

set_option maxRecDepth 8000 in
/-- Witness for C2 on a concrete run (Scenario C shape): confirming checkpoint
`s1` completes it, moves the session to `s2` and prompts for its first field. -/
theorem confirmation_outcome_after_all_fields_witness :
    (((processOnboardingMessage "yes".toList progT1Full flowB 7).1.stepProgress.find?
        (fun sp => sp.stepId == stepT1.stepId)).map
        (fun sp => (sp.status, sp.confirmationData))) =
      some (StepStatus.completed, some "Name: Alice".toList) ∧
    (processOnboardingMessage "yes".toList progT1Full flowB 7).1.currentStep = "s2".toList ∧
    (processOnboardingMessage "yes".toList progT1Full flowB 7).2 = "Any note to add?".toList := by
  obtain ⟨h1, _h2, h3⟩ := confirmation_outcome_after_all_fields "yes".toList progT1Full flowB 7
    stepT1
    ⟨"s1".toList, "One".toList, StepStatus.in_progress, some 1, none,
      [⟨"full_name".toList, "Alice".toList, 1, false⟩], none⟩
    (by decide) rfl (by decide) (by decide) (by decide)
  obtain ⟨h31, h32, _⟩ := h3 stepT2 (by decide) (by decide)
  exact ⟨h1.trans (by decide), h31, h32 fldG [] rfl rfl⟩

set_option maxRecDepth 8000 in
/-- Counterexample to C4 as stated: after checkpoint `s1` was completed by a
confirmation (the session now sits on checkpoint step `s2`), one more
utterance classified as `confirmation` moves the session again — from `s2`
to `s3` — so repeated confirmation intents do not leave the session's
position unchanged. -/
theorem repeated_confirmation_moves_session :
    progAfterS1.currentStep = "s2".toList ∧
    (processOnboardingMessage "yes".toList progAfterS1 flowB 9).1.currentStep = "s3".toList ∧
    ("s3".toList : Str) ≠ "s2".toList := by
  decide

/-- C4 (amended): on a terminal checkpoint step (empty `nextStepId`, so the
session's position never moves away), confirmation is idempotent — every
utterance classified as `confirmation` returns the same acknowledgement
response, keeps the session's position, and preserves every stored field
value, including across a second such utterance. -/
theorem terminal_confirmation_idempotent (msg msg2 : Str) (p : Progress) (flow : FlowConfig)
    (now now2 : Nat) (step : Step)
    (hstep : flow.steps.find? (fun st => st.stepId == p.currentStep) = some step)
    (hcp : step.isCheckpoint = true)
    (hterm : step.nextStep = [])
    (hint : (classifyIntent (lc msg)).name = "confirmation".toList)
    (hint2 : (classifyIntent (lc msg2)).name = "confirmation".toList) :
    (processOnboardingMessage msg p flow now).2 = thankYouResponse ∧
    (processOnboardingMessage msg p flow now).1.currentStep = p.currentStep ∧
    storedValues (processOnboardingMessage msg p flow now).1 = storedValues p ∧
    (processOnboardingMessage msg2 (processOnboardingMessage msg p flow now).1 flow now2).2 =
      thankYouResponse ∧
    (processOnboardingMessage msg2 (processOnboardingMessage msg p flow now).1 flow
        now2).1.currentStep = p.currentStep ∧
    storedValues (processOnboardingMessage msg2 (processOnboardingMessage msg p flow now).1
        flow now2).1 = storedValues p := by
  have e1 : processOnboardingMessage msg p flow now =
      (confirmStepData p step.stepId
        (buildConfirmationData step (getCurrentStepProgress p)) now, thankYouResponse) := by
    rw [processOnboardingMessage_confirmation msg p flow now step hstep hcp hint,
      handleStepConfirmation_terminal p step flow now hterm]
  have hcur1 : (confirmStepData p step.stepId
      (buildConfirmationData step (getCurrentStepProgress p)) now).currentStep =
      p.currentStep := confirmStepData_currentStep p step.stepId _ now
  have hstep1 : flow.steps.find? (fun st => st.stepId == (confirmStepData p step.stepId
      (buildConfirmationData step (getCurrentStepProgress p)) now).currentStep) = some step := by
    simp only [hcur1]
    exact hstep
  have e2 : processOnboardingMessage msg2 (confirmStepData p step.stepId
      (buildConfirmationData step (getCurrentStepProgress p)) now) flow now2 =
      (confirmStepData (confirmStepData p step.stepId
          (buildConfirmationData step (getCurrentStepProgress p)) now) step.stepId
        (buildConfirmationData step (getCurrentStepProgress (confirmStepData p step.stepId
          (buildConfirmationData step (getCurrentStepProgress p)) now))) now2,
       thankYouResponse) := by
    rw [processOnboardingMessage_confirmation msg2 _ flow now2 step hstep1 hcp hint2,
      handleStepConfirmation_terminal _ step flow now2 hterm]
  rw [e1]
  refine ⟨rfl, hcur1, storedValues_confirmStepData p step.stepId _ now, ?_, ?_, ?_⟩
  · rw [e2]
  · rw [e2]
    rw [show (confirmStepData (confirmStepData p step.stepId
        (buildConfirmationData step (getCurrentStepProgress p)) now) step.stepId
        (buildConfirmationData step (getCurrentStepProgress (confirmStepData p step.stepId
          (buildConfirmationData step (getCurrentStepProgress p)) now))) now2).currentStep =
        _ from confirmStepData_currentStep _ step.stepId _ now2]
    exact hcur1
  · rw [e2]
    rw [show storedValues (confirmStepData (confirmStepData p step.stepId
        (buildConfirmationData step (getCurrentStepProgress p)) now) step.stepId
        (buildConfirmationData step (getCurrentStepProgress (confirmStepData p step.stepId
          (buildConfirmationData step (getCurrentStepProgress p)) now))) now2) =
        _ from storedValues_confirmStepData _ step.stepId _ now2]
    exact storedValues_confirmStepData p step.stepId _ now

set_option maxRecDepth 8000 in
/-- Witness for C4 on a concrete completed terminal checkpoint session. -/
theorem terminal_confirmation_idempotent_witness :
    (processOnboardingMessage "yes".toList progDone flowA 8).2 = thankYouResponse ∧
    (processOnboardingMessage "yes".toList progDone flowA 8).1.currentStep = "s1".toList ∧
    storedValues (processOnboardingMessage "yes".toList progDone flowA 8).1 =
      storedValues progDone ∧
    (processOnboardingMessage "yes".toList
        (processOnboardingMessage "yes".toList progDone flowA 8).1 flowA 9).2 =
      thankYouResponse := by
  obtain ⟨a, b, c, d, _, _⟩ := terminal_confirmation_idempotent "yes".toList "yes".toList
    progDone flowA 8 9 stepS1 (by decide) rfl rfl (by decide) (by decide)
  exact ⟨a, b, c, d⟩

/-- Counterexample to C3 as stated: on a record whose entries were stored in
the reverse of the declared field order, the rendered confirmation block
follows the stored (collection) order of `fieldData`, not the declared
field order the claim describes. -/
theorem confirmation_block_uses_collection_order :
    buildConfirmationData stepS1 (some spRev) = "City: Pune\nName: Alice".toList ∧
    specDeclaredOrderBlock stepS1 spRev = "Name: Alice\nCity: Pune".toList ∧
    buildConfirmationData stepS1 (some spRev) ≠ specDeclaredOrderBlock stepS1 spRev := by
  decide

theorem aligned_render_aux :
    ∀ (fields : List FieldDef) (fds : List FieldData),
      (fds.map (fun fd => fd.fieldId)).Sublist (fields.map (fun f => f.fieldId)) →
      (fields.map (fun f => f.fieldId)).Nodup →
      fds.map (fun fd =>
        ((fields.find? (fun f => f.fieldId == fd.fieldId)).map
          (fun field => renderField field fd.value)).getD []) =
      (fields.filter (fun f => (fds.find? (fun fd => fd.fieldId == f.fieldId)).isSome)).map
        (fun f =>
          ((fds.find? (fun fd => fd.fieldId == f.fieldId)).map
            (fun fd => renderField f fd.value)).getD []) := by
  intro fields
  induction fields with
  | nil =>
    intro fds hsub _
    have h0 : fds.map (fun fd => fd.fieldId) = [] := List.sublist_nil.mp hsub
    have hfds : fds = [] := List.map_eq_nil_iff.mp h0
    subst hfds
    rfl
  | cons f fs ih =>
    intro fds hsub hnodup
    have hnd := List.nodup_cons.mp hnodup
    cases fds with
    | nil => simp
    | cons fd fds' =>
      by_cases heq : fd.fieldId = f.fieldId
      · have hsub' : (fds'.map (fun fd => fd.fieldId)).Sublist (fs.map (fun f => f.fieldId)) := by
          have h := hsub
          simp only [List.map_cons, heq] at h
          exact List.cons_sublist_cons.mp h
        have htail : ∀ fd' ∈ fds', (f.fieldId == fd'.fieldId) = false := by
          intro fd' hmem
          have h1 : fd'.fieldId ∈ fs.map (fun f => f.fieldId) :=
            hsub'.subset (List.mem_map_of_mem _ hmem)
          have h2 : f.fieldId ≠ fd'.fieldId := by
            intro he
            exact hnd.1 (by simpa [he] using h1)
          simpa using h2
        have hgs : ∀ g ∈ fs, (fd.fieldId == g.fieldId) = false := by
          intro g hmem
          have h1 : g.fieldId ∈ fs.map (fun f => f.fieldId) := List.mem_map_of_mem _ hmem
          have h2 : fd.fieldId ≠ g.fieldId := by
            intro he
            exact hnd.1 (by simpa [heq ▸ he] using h1)
          simpa using h2
        have hf1 : (f.fieldId == fd.fieldId) = true := by simpa using heq.symm
        have hf2 : (fd.fieldId == f.fieldId) = true := by simpa using heq
        simp only [List.map_cons, List.filter_cons]
        rw [List.find?_cons_of_pos fs hf1, List.find?_cons_of_pos fds' hf2]
        rw [List.map_congr_left (l := fds')
          (g := fun fd' => (Option.map (fun field => renderField field fd'.value)
            (List.find? (fun f0 => f0.fieldId == fd'.fieldId) fs)).getD [])
          (fun fd' hmem => by
            rw [List.find?_cons_of_neg fs (by simp [htail fd' hmem])])]
        rw [List.filter_congr (l := fs)
          (q := fun g => (List.find? (fun fd0 => fd0.fieldId == g.fieldId) fds').isSome)
          (fun g hmem => by
            rw [List.find?_cons_of_neg fds' (by simp [hgs g hmem])])]
        simp only [Option.isSome_some, if_true, List.map_cons]
        rw [List.find?_cons_of_pos fds' hf2]
        simp only [Option.map_some', Option.getD_some]
        refine congrArg (List.cons _) ?_
        rw [List.map_congr_left
          (g := fun g => (Option.map (fun fd0 => renderField g fd0.value)
            (List.find? (fun fd0 => fd0.fieldId == g.fieldId) fds')).getD [])
          (fun g hmem => by
            rw [List.find?_cons_of_neg fds'
              (by simp [hgs g (List.mem_of_mem_filter hmem)])])]
        exact ih fds' hsub' hnd.2
      · have hsub' : ((fd :: fds').map (fun fd => fd.fieldId)).Sublist
            (fs.map (fun f => f.fieldId)) := by
          rcases List.sublist_cons_iff.mp hsub with h' | ⟨r, hr, _⟩
          · exact h'
          · exact absurd (by simpa using congrArg (fun l => l.head?) hr) heq
        have hall : ∀ fd' ∈ fd :: fds', fd'.fieldId ≠ f.fieldId := by
          intro fd' hmem he
          have h1 : fd'.fieldId ∈ fs.map (fun f => f.fieldId) :=
            hsub'.subset (List.mem_map_of_mem _ hmem)
          exact hnd.1 (by simpa [he] using h1)
        have hnone : (fd :: fds').find? (fun fd0 => fd0.fieldId == f.fieldId) = none := by
          rw [List.find?_eq_none]
          intro a ha
          simpa using hall a ha
        rw [List.map_congr_left (l := fd :: fds')
          (g := fun fd' => (Option.map (fun field => renderField field fd'.value)
            (List.find? (fun f0 => f0.fieldId == fd'.fieldId) fs)).getD [])
          (fun fd' hmem => by
            rw [List.find?_cons_of_neg fs (by simpa using (hall fd' hmem).symm)])]
        rw [List.filter_cons, hnone]
        simp only [Option.isSome_none, Bool.false_eq_true, if_false]
        exact ih (fd :: fds') hsub' hnd.2

/-- C3 (amended): the code's confirmation block iterates the record's
`fieldData` entries in their stored (collection) order, rendering each via
the declared field's template and skipping declared fields with no stored
value.  When the stored entries are id-aligned with the declared field
order — a subsequence of it, as the engine's own collection loop produces —
the result coincides with the spec's declared-order rendering; on records
collected out of declared order the two differ. -/
theorem confirmation_block_on_aligned_records (step : Step) (sp : StepProgress)
    (hsub : (sp.fieldData.map (fun fd => fd.fieldId)).Sublist
      (step.fields.map (fun f => f.fieldId)))
    (hnodup : (step.fields.map (fun f => f.fieldId)).Nodup) :
    buildConfirmationData step (some sp) = specDeclaredOrderBlock step sp := by
  unfold buildConfirmationData specDeclaredOrderBlock
  exact congrArg (List.intercalate ['\n'])
    (aligned_render_aux step.fields sp.fieldData hsub hnodup)

/-- Witness for C3's amended claim: on an in-order record the two renderings
agree. -/
theorem confirmation_block_on_aligned_records_witness :
    buildConfirmationData stepS1 (some ⟨"s1".toList, "Basic details".toList,
      StepStatus.in_progress, some 1, none,
      [⟨"full_name".toList, "Alice".toList, 1, false⟩,
       ⟨"city".toList, "Pune".toList, 2, false⟩], none⟩) =
      specDeclaredOrderBlock stepS1 ⟨"s1".toList, "Basic details".toList,
        StepStatus.in_progress, some 1, none,
        [⟨"full_name".toList, "Alice".toList, 1, false⟩,
         ⟨"city".toList, "Pune".toList, 2, false⟩], none⟩ :=
  confirmation_block_on_aligned_records stepS1 _ (by decide) (by decide)

/-- Counterexample to C6 as stated: for a select field whose declared option
list is `[""]`, the empty option's lowercased text occurs in every
utterance (`find?` returns it), yet extraction returns `none` — the
JavaScript `selectedOption || null` coerces the falsy empty string. -/
theorem empty_select_option_never_returned :
    ([([] : Str)].find? (fun o => jsIncludes (lc "hello".toList) (lc o)) = some ([] : Str)) ∧
    extractFieldValue "hello".toList selEmpty = none := by
  decide

/-- C6 (amended): select extraction returns `some v` exactly when `v` is the
first declared option whose lowercased text occurs as a substring of the
lowercased utterance, **and `v` is not the empty string** — a matching empty
option makes extraction return `none` (the `|| null` coercion); `none` is
also returned when no option matches. -/
theorem select_extraction_first_match (msg : Str) (f : FieldDef) (opts : List Str)
    (htype : f.fieldType = "select".toList)
    (hval : f.validation = some ⟨some opts⟩) :
    ∀ v, extractFieldValue msg f = some v ↔
      (v ≠ [] ∧ ∃ l₁ l₂, opts = l₁ ++ v :: l₂ ∧ jsIncludes (lc msg) (lc v) = true ∧
        ∀ o ∈ l₁, jsIncludes (lc msg) (lc o) = false) := by
  intro v
  simp only [extractFieldValue, htype, hval]
  rw [if_neg (by decide), if_neg (by decide), if_neg (by decide), if_neg (by decide),
    if_neg (by decide), if_pos trivial]
  constructor
  · intro h
    cases hf : opts.find? (fun o => jsIncludes (lc msg) (lc o)) with
    | none => rw [hf] at h; simp at h
    | some o =>
      rw [hf] at h
      have h' : (if o = [] then none else some o) = some v := h
      by_cases ho : o = []
      · rw [if_pos ho] at h'
        exact absurd h' (by simp)
      · rw [if_neg ho] at h'
        have hov : o = v := by simpa using h'
        subst hov
        obtain ⟨hp, l₁, l₂, hsplit, hall⟩ := List.find?_eq_some.mp hf
        exact ⟨ho, l₁, l₂, hsplit, hp, fun x hx => by simpa using hall x hx⟩
  · rintro ⟨hv, l₁, l₂, hsplit, hinc, hall⟩
    have hf : opts.find? (fun o => jsIncludes (lc msg) (lc o)) = some v :=
      List.find?_eq_some.mpr ⟨hinc, l₁, l₂, hsplit, fun a ha => by simpa using hall a ha⟩
    rw [hf]
    show (if v = [] then none else some v) = some v
    rw [if_neg hv]

/-- Witness for C6's amended claim at Scenario B: options
Owned / Rented / Provided by employer, utterance "it's rented". -/
theorem select_extraction_first_match_witness :
    extractFieldValue ("it".toList ++ apoc :: "s rented".toList) selRent =
      some "Rented".toList :=
  (select_extraction_first_match ("it".toList ++ apoc :: "s rented".toList) selRent
      ["Owned".toList, "Rented".toList, "Provided by employer".toList] rfl rfl
      "Rented".toList).mpr
    ⟨by decide, ["Owned".toList], ["Provided by employer".toList], by decide, by decide,
      by decide⟩
